import Mathlib

/-!
Verification of the UnMuter audio loopback engine (src/Source/UROnMute.h).

The engine is a JUCE AudioIODeviceCallback.  Its observable state is the
boolean member testIsRunning (plus a CriticalSection lock used only for
mutual exclusion, modelled separately as a lock-discipline trace).  The
per-buffer callback audioDeviceIOCallbackWithContext either copies input
samples to output (when testIsRunning) or zero-fills the outputs.

Samples are 32-bit floats in the source; the callback performs no float
arithmetic (only copies and zero-fills), so we model samples as rationals,
which have the exact-equality semantics the spec talks about.  A channel
pointer is modelled as an Option over the channel memory (a list of
samples); nullptr is none.  The pointer arrays inputChannelData /
outputChannelData are lists of such pointers; the channel counts are kept
as separate arguments exactly as in the C++ signature.
-/

abbrev Sample := Rat

abbrev Channel := List Sample

abbrev ChannelPtr := Option Channel

abbrev Buffers := List ChannelPtr

/-- Read a sample through a channel pointer: null or out-of-range reads
have no defined C++ meaning; the embedding returns 0 there (claims always
carry the hypotheses that make the access in-bounds and non-null). -/
def chRead (p : ChannelPtr) (i : Nat) : Sample :=
  match p with
  | some ch => ch.getD i 0
  | none => 0

/-- The engine state: the testIsRunning flag of class UnMuter.  The
resultsBox reference is UI-only (beginTest appends a status line to it);
it carries no engine state and is omitted. -/
structure UnMuter where
  testIsRunning : Bool
deriving DecidableEq

/-- The constructor UnMuter(TextEditor&): the member initializer
testIsRunning = false gives a freshly constructed engine. -/
def UnMuter.init : UnMuter := ⟨false⟩

/-- bool beginTest(): if testIsRunning then set it false else set it true,
then return testIsRunning.  (The TextEditor caret moves and text insertion
are UI effects with no engine state.)  Returns (result, new state). -/
def beginTest (s : UnMuter) : Bool × UnMuter :=
  let s2 : UnMuter := if s.testIsRunning then ⟨false⟩ else ⟨true⟩
  (s2.testIsRunning, s2)

/-- void audioDeviceAboutToStart(AudioIODevice*): sets testIsRunning = false. -/
def audioDeviceAboutToStart (_s : UnMuter) : UnMuter := ⟨false⟩

/-- Innermost loop of the active branch:
for (auto och = numOutputChannels; --och >= 0;)
  if (inputChannelData[ich] != nullptr && outputChannelData[och] != nullptr)
    outputChannelData[och][i] = inputChannelData[ich][i];
The argument p is inputChannelData[ich]; the counter processes output
channel indices n-1, n-2, ..., 0 in that (descending) order. -/
def ochLoop (p : ChannelPtr) (i : Nat) : Nat → Buffers → Buffers
  | 0, outs => outs
  | och + 1, outs =>
    ochLoop p i och
      (match p, outs.getD och none with
       | some inCh, some outCh => outs.set och (some (outCh.set i (inCh.getD i 0)))
       | _, _ => outs)

/-- Middle loop of the active branch:
for (auto ich = numInputChannels; --ich >= 0;) { ...och loop... }
Input channel indices n-1, ..., 0 are processed in descending order, so
index 0 is processed last. -/
def ichLoop (ins : Buffers) (numOut i : Nat) : Nat → Buffers → Buffers
  | 0, outs => outs
  | ich + 1, outs => ichLoop ins numOut i ich (ochLoop (ins.getD ich none) i numOut outs)

/-- Outer loop of the active branch:
for (int i = 0; i < numSamples; ++i) { ...ich loop... }
Counts i upward; the second Nat is the number of remaining iterations. -/
def sampleLoop (ins : Buffers) (numIn numOut : Nat) : Nat → Nat → Buffers → Buffers
  | _, 0, outs => outs
  | i, rem + 1, outs => sampleLoop ins numIn numOut (i + 1) rem (ichLoop ins numOut i numIn outs)

/-- zeromem (outputChannelData[i], numSamples * sizeof (float)): write 0.0
to the first n elements of the channel memory. -/
def zeroFirst : Nat → Channel → Channel
  | 0, ch => ch
  | _ + 1, [] => []
  | n + 1, _ :: xs => 0 :: zeroFirst n xs

/-- Idle branch:
for (int i = 0; i < numOutputChannels; ++i)
  if (outputChannelData[i] != nullptr) zeromem (outputChannelData[i], ...);
Counts i upward; the second Nat is the number of remaining iterations. -/
def clearLoop (numSamples : Nat) : Nat → Nat → Buffers → Buffers
  | _, 0, outs => outs
  | i, rem + 1, outs =>
    clearLoop numSamples (i + 1) rem
      (match outs.getD i none with
       | some ch => outs.set i (some (zeroFirst numSamples ch))
       | none => outs)

/-- void audioDeviceIOCallbackWithContext(...): takes the lock, then either
runs the triple copy loop (testIsRunning) or zero-fills the outputs.
Returns the output buffers after the call (the only memory it writes). -/
def audioDeviceIOCallbackWithContext (s : UnMuter) (ins : Buffers) (numIn : Nat)
    (outs : Buffers) (numOut numSamples : Nat) : Buffers :=
  if s.testIsRunning then
    sampleLoop ins numIn numOut 0 numSamples outs
  else
    clearLoop numSamples 0 numOut outs

/-- The smallest channel index below n whose pointer in ins is non-null,
if any.  Because the copy loop walks input channels from high to low, the
channel found here is the one written last into every output channel. -/
def firstLive (ins : Buffers) : Nat → Option Nat
  | 0 => none
  | n + 1 =>
    match firstLive ins n with
    | some k => some k
    | none => if (ins.getD n none).isSome then some n else none

/-- Write f j to positions j = i, i+1, ..., i+rem-1 of a channel (used to
express what the active branch accumulates over all samples). -/
def setRange (f : Nat → Sample) : Nat → Nat → Channel → Channel
  | _, 0, ch => ch
  | i, rem + 1, ch => setRange f (i + 1) rem (ch.set i (f i))

/-- A memory access performed through one of the channel pointers during
the callback (accesses to the pointer arrays themselves, i.e. the
null-checks, are always in bounds and are not dereferences). -/
inductive MemAccess where
  | readIn (ich i : Nat)
  | writeOut (och i : Nat)
deriving DecidableEq

/-- Accesses of one round of the innermost copy loop: index pair (ich, i)
fixed, output channels n-1, ..., 0.  The body dereferences
inputChannelData[ich] and outputChannelData[och] exactly when both
pointers are non-null; pointers never change during the callback, so the
guard is evaluated on the initial buffers. -/
def ochTrace (ins outs : Buffers) (ich i : Nat) : Nat → List MemAccess
  | 0 => []
  | och + 1 =>
    (if (ins.getD ich none).isSome && (outs.getD och none).isSome then
      [MemAccess.readIn ich i, MemAccess.writeOut och i]
     else []) ++ ochTrace ins outs ich i och

/-- Accesses of one round of the middle copy loop (sample index i fixed). -/
def ichTrace (ins outs : Buffers) (numOut i : Nat) : Nat → List MemAccess
  | 0 => []
  | ich + 1 => ochTrace ins outs ich i numOut ++ ichTrace ins outs numOut i ich

/-- Accesses of the active branch, samples i, i+1, ..., i+rem-1. -/
def sampleTrace (ins outs : Buffers) (numIn numOut : Nat) : Nat → Nat → List MemAccess
  | _, 0 => []
  | i, rem + 1 => ichTrace ins outs numOut i numIn ++ sampleTrace ins outs numIn numOut (i + 1) rem

/-- Accesses of the idle branch: zeromem writes numSamples elements of
every non-null output channel i, i in ascending order. -/
def clearTrace (outs : Buffers) (numSamples : Nat) : Nat → Nat → List MemAccess
  | _, 0 => []
  | i, rem + 1 =>
    (if (outs.getD i none).isSome then
      (List.range numSamples).map (fun j => MemAccess.writeOut i j)
     else []) ++ clearTrace outs numSamples (i + 1) rem

/-- All channel-memory accesses performed by one callback invocation. -/
def cbTrace (s : UnMuter) (ins : Buffers) (numIn : Nat) (outs : Buffers)
    (numOut numSamples : Nat) : List MemAccess :=
  if s.testIsRunning then sampleTrace ins outs numIn numOut 0 numSamples
  else clearTrace outs numSamples 0 numOut

/-- An access is safe when it goes through a non-null channel pointer at
an offset below numSamples. -/
def accessOK (ins outs : Buffers) (numSamples : Nat) : MemAccess → Prop
  | MemAccess.readIn ich i => (ins.getD ich none).isSome = true ∧ i < numSamples
  | MemAccess.writeOut och i => (outs.getD och none).isSome = true ∧ i < numSamples

/-- One access to the shared testIsRunning flag, tagged with whether the
CriticalSection lock is held at that point. -/
structure FlagAccess where
  isWrite : Bool
  underLock : Bool
deriving DecidableEq

/-- Flag accesses of bool beginTest(): the if-condition read, the write in
the taken branch, and the read in the return statement.  The body contains
no ScopedLock, so no access holds the lock. -/
def beginTestFlagTrace : List FlagAccess :=
  [⟨false, false⟩, ⟨true, false⟩, ⟨false, false⟩]

/-- Flag accesses of audioDeviceAboutToStart: one write, no ScopedLock. -/
def aboutToStartFlagTrace : List FlagAccess :=
  [⟨true, false⟩]

/-- Flag accesses of audioDeviceIOCallbackWithContext: the ScopedLock sl
(lock) is in scope for the whole body, so the single read of the
if-condition holds the lock. -/
def callbackFlagTrace : List FlagAccess :=
  [⟨false, true⟩]

/-! ## Basic list-access helpers -/

theorem getD_set_self_of_lt {α : Type} (l : List α) (k : Nat) (p d : α)
    (h : k < l.length) : (l.set k p).getD k d = p := by
  simp [List.getD_eq_getElem?_getD, List.getElem?_set_self h]

theorem getD_set_ne {α : Type} (l : List α) (k j : Nat) (p d : α)
    (h : k ≠ j) : (l.set k p).getD j d = l.getD j d := by
  simp [List.getD_eq_getElem?_getD, List.getElem?_set_ne h]

theorem lt_length_of_getD_eq_some (l : Buffers) (k : Nat) (ch : Channel)
    (h : l.getD k none = some ch) : k < l.length := by
  by_contra hk
  rw [List.getD_eq_getElem?_getD, List.getElem?_eq_none (by omega)] at h
  simp at h

/-! ## Characterization of the active-branch loops -/

theorem ochLoop_none (i : Nat) : ∀ n outs, ochLoop none i n outs = outs := by
  intro n
  induction n with
  | zero => intro outs; rfl
  | succ m ih => intro outs; simp only [ochLoop]; exact ih _

theorem ochLoop_length (p : ChannelPtr) (i : Nat) :
    ∀ n outs, (ochLoop p i n outs).length = outs.length := by
  intro n
  induction n with
  | zero => intro outs; rfl
  | succ m ih =>
    intro outs
    simp only [ochLoop]
    rw [ih]
    cases p with
    | none => rfl
    | some inCh =>
      cases ho : outs.getD m none with
      | none => rfl
      | some outCh => simp

theorem ochLoop_getD_ge (p : ChannelPtr) (i : Nat) :
    ∀ n outs och, n ≤ och → (ochLoop p i n outs).getD och none = outs.getD och none := by
  intro n
  induction n with
  | zero => intro outs och _; rfl
  | succ m ih =>
    intro outs och hle
    simp only [ochLoop]
    rw [ih _ _ (by omega)]
    cases p with
    | none => rfl
    | some inCh =>
      cases ho : outs.getD m none with
      | none => rfl
      | some outCh =>
        simp only
        exact getD_set_ne _ _ _ _ _ (by omega)

theorem ochLoop_getD_lt (inCh : Channel) (i : Nat) :
    ∀ n outs och, och < n →
      (ochLoop (some inCh) i n outs).getD och none =
        match outs.getD och none with
        | none => none
        | some ch => some (ch.set i (inCh.getD i 0)) := by
  intro n
  induction n with
  | zero => intro outs och h; omega
  | succ m ih =>
    intro outs och hlt
    by_cases hm : och < m
    · simp only [ochLoop]
      rw [ih _ _ hm]
      cases ho : outs.getD m none with
      | none => rfl
      | some outCh =>
        simp only
        rw [getD_set_ne _ _ _ _ _ (by omega)]
    · have hoch : och = m := by omega
      subst hoch
      simp only [ochLoop]
      rw [ochLoop_getD_ge _ _ _ _ _ (le_refl och)]
      cases ho : outs.getD och none with
      | none => simp only [ho]
      | some outCh =>
        simp only [ho]
        exact getD_set_self_of_lt _ _ _ _ (lt_length_of_getD_eq_some _ _ _ ho)

theorem ichLoop_getD (ins : Buffers) (numOut i : Nat) :
    ∀ n outs och,
      (ichLoop ins numOut i n outs).getD och none =
        match firstLive ins n with
        | none => outs.getD och none
        | some k =>
          if och < numOut then
            match outs.getD och none with
            | none => none
            | some ch => some (ch.set i (chRead (ins.getD k none) i))
          else outs.getD och none := by
  intro n
  induction n with
  | zero => intro outs och; rfl
  | succ m ih =>
    intro outs och
    simp only [ichLoop]
    cases hf : firstLive ins m with
    | some k =>
      have hins : firstLive ins (m + 1) = some k := by simp [firstLive, hf]
      rw [ih (ochLoop (ins.getD m none) i numOut outs) och, hf]
      simp only [hins]
      by_cases hoch : och < numOut
      · simp only [if_pos hoch]
        cases hp : ins.getD m none with
        | none => rw [ochLoop_none]
        | some inCh =>
          rw [ochLoop_getD_lt inCh i numOut outs och hoch]
          cases ho : outs.getD och none with
          | none => rfl
          | some ch => simp [List.set_set]
      · simp only [if_neg hoch]
        exact ochLoop_getD_ge _ _ _ _ _ (by omega)
    | none =>
      cases hp : ins.getD m none with
      | none =>
        have hsome : (ins.getD m none).isSome = false := by rw [hp]; rfl
        have hins : firstLive ins (m + 1) = none := by
          simp only [firstLive, hf, hsome, Bool.false_eq_true, if_false]
        rw [ochLoop_none, ih outs och, hf]
        simp only [hins]
      | some inCh =>
        have hsome : (ins.getD m none).isSome = true := by rw [hp]; rfl
        have hins : firstLive ins (m + 1) = some m := by
          simp only [firstLive, hf, hsome, if_true]
        rw [ih _ och, hf]
        simp only [hins, hp]
        by_cases hoch : och < numOut
        · rw [if_pos hoch, ochLoop_getD_lt inCh i numOut outs och hoch]
          simp only [chRead]
        · rw [if_neg hoch]
          exact ochLoop_getD_ge _ _ _ _ _ (by omega)

theorem setRange_length (f : Nat → Sample) :
    ∀ rem i ch, (setRange f i rem ch).length = ch.length := by
  intro rem
  induction rem with
  | zero => intro i ch; rfl
  | succ m ih => intro i ch; simp only [setRange]; rw [ih, List.length_set]

theorem setRange_getD (f : Nat → Sample) :
    ∀ rem i ch j,
      (setRange f i rem ch).getD j 0 =
        if i ≤ j ∧ j < i + rem ∧ j < ch.length then f j else ch.getD j 0 := by
  intro rem
  induction rem with
  | zero =>
    intro i ch j
    have h : ¬(i ≤ j ∧ j < i + 0 ∧ j < ch.length) := by omega
    rw [setRange, if_neg h]
  | succ m ih =>
    intro i ch j
    simp only [setRange]
    rw [ih]
    by_cases hji : j = i
    · subst hji
      have h1 : ¬(j + 1 ≤ j ∧ j < j + 1 + m ∧ j < (ch.set j (f j)).length) := by omega
      rw [if_neg h1]
      by_cases hlen : j < ch.length
      · rw [if_pos (by omega), getD_set_self_of_lt _ _ _ _ hlen]
      · rw [if_neg (by omega), List.getD_eq_getElem?_getD, List.getElem?_eq_none (by simp; omega),
          List.getD_eq_getElem?_getD, List.getElem?_eq_none (by omega)]
    · rw [getD_set_ne _ _ _ _ _ (fun h => hji h.symm), List.length_set]
      by_cases h2 : i ≤ j ∧ j < i + (m + 1) ∧ j < ch.length
      · rw [if_pos (by omega), if_pos h2]
      · rw [if_neg (by omega), if_neg h2]

theorem sampleLoop_getD (ins : Buffers) (numIn numOut : Nat) :
    ∀ rem i0 outs och,
      (sampleLoop ins numIn numOut i0 rem outs).getD och none =
        match firstLive ins numIn with
        | none => outs.getD och none
        | some k =>
          if och < numOut then
            match outs.getD och none with
            | none => none
            | some ch => some (setRange (fun j => chRead (ins.getD k none) j) i0 rem ch)
          else outs.getD och none := by
  intro rem
  induction rem with
  | zero =>
    intro i0 outs och
    cases hf : firstLive ins numIn with
    | none => rfl
    | some k =>
      simp only [sampleLoop]
      by_cases hoch : och < numOut
      · rw [if_pos hoch]
        cases ho : outs.getD och none with
        | none => rfl
        | some ch => rfl
      · rw [if_neg hoch]
  | succ m ih =>
    intro i0 outs och
    simp only [sampleLoop]
    rw [ih (i0 + 1) (ichLoop ins numOut i0 numIn outs) och, ichLoop_getD]
    cases hf : firstLive ins numIn with
    | none => rfl
    | some k =>
      by_cases hoch : och < numOut
      · simp only [if_pos hoch]
        cases ho : outs.getD och none with
        | none => rfl
        | some ch => rfl
      · simp only [if_neg hoch]

theorem ichLoop_allNull (ins : Buffers) (numOut i : Nat) :
    ∀ n outs, (∀ ich, ich < n → ins.getD ich none = none) →
      ichLoop ins numOut i n outs = outs := by
  intro n
  induction n with
  | zero => intro outs _; rfl
  | succ m ih =>
    intro outs hnull
    simp only [ichLoop]
    rw [hnull m (by omega), ochLoop_none]
    exact ih outs (fun ich h => hnull ich (by omega))

theorem sampleLoop_allNull (ins : Buffers) (numIn numOut : Nat)
    (hnull : ∀ ich, ich < numIn → ins.getD ich none = none) :
    ∀ rem i0 outs, sampleLoop ins numIn numOut i0 rem outs = outs := by
  intro rem
  induction rem with
  | zero => intro i0 outs; rfl
  | succ m ih =>
    intro i0 outs
    simp only [sampleLoop]
    rw [ichLoop_allNull ins numOut i0 numIn outs hnull]
    exact ih (i0 + 1) outs

/-! ## Characterization of the idle branch -/

theorem zeroFirst_length : ∀ n ch, (zeroFirst n ch).length = ch.length := by
  intro n
  induction n with
  | zero => intro ch; rfl
  | succ m ih =>
    intro ch
    cases ch with
    | nil => rfl
    | cons x xs => simp only [zeroFirst, List.length_cons]; rw [ih]

theorem zeroFirst_getD :
    ∀ ch n j, j < n → j < ch.length → (zeroFirst n ch).getD j 0 = 0 := by
  intro ch
  induction ch with
  | nil => intro n j _ h; simp at h
  | cons x xs ih =>
    intro n j hjn hjl
    cases n with
    | zero => omega
    | succ m =>
      cases j with
      | zero => rfl
      | succ j2 =>
        simp only [zeroFirst, List.getD_cons_succ]
        exact ih m j2 (by omega) (by simpa using hjl)

theorem clearLoop_getD (ns : Nat) :
    ∀ rem i0 outs och,
      (clearLoop ns i0 rem outs).getD och none =
        if i0 ≤ och ∧ och < i0 + rem then
          match outs.getD och none with
          | none => none
          | some ch => some (zeroFirst ns ch)
        else outs.getD och none := by
  intro rem
  induction rem with
  | zero =>
    intro i0 outs och
    rw [clearLoop, if_neg (by omega)]
  | succ m ih =>
    intro i0 outs och
    simp only [clearLoop]
    rw [ih]
    by_cases hoi : och = i0
    · subst hoi
      rw [if_neg (by omega), if_pos (by omega)]
      cases ho : outs.getD och none with
      | none => simp only [ho]
      | some ch =>
        simp only [ho]
        exact getD_set_self_of_lt _ _ _ _ (lt_length_of_getD_eq_some _ _ _ ho)
    · have heq : (match outs.getD i0 none with
          | some ch => outs.set i0 (some (zeroFirst ns ch))
          | none => outs).getD och none = outs.getD och none := by
        cases ho : outs.getD i0 none with
        | none => simp only [ho]
        | some ch =>
          simp only [ho]
          exact getD_set_ne _ _ _ _ _ (fun h => hoi h.symm)
      rw [heq]
      by_cases h2 : i0 ≤ och ∧ och < i0 + (m + 1)
      · rw [if_pos (by omega), if_pos h2]
      · rw [if_neg (by omega), if_neg h2]

/-! ## firstLive finds the smallest non-null input index -/

theorem firstLive_none_of (ins : Buffers) :
    ∀ n, (∀ j, j < n → ins.getD j none = none) → firstLive ins n = none := by
  intro n
  induction n with
  | zero => intro _; rfl
  | succ m ih =>
    intro h
    have hm : (ins.getD m none).isSome = false := by rw [h m (by omega)]; rfl
    simp only [firstLive, ih (fun j hj => h j (by omega)), hm, Bool.false_eq_true, if_false]

theorem firstLive_eq_of (ins : Buffers) :
    ∀ n k, k < n → (ins.getD k none).isSome = true →
      (∀ j, j < k → ins.getD j none = none) → firstLive ins n = some k := by
  intro n
  induction n with
  | zero => intro k h _ _; omega
  | succ m ih =>
    intro k hk hsome hbelow
    by_cases hkm : k = m
    · subst hkm
      simp only [firstLive, firstLive_none_of ins k hbelow, hsome, if_true]
    · have h2 := ih k (by omega) hsome hbelow
      simp only [firstLive, h2]

/-! ## Safety of every channel-memory access -/

theorem ochTrace_ok (ins outs : Buffers) (ich i ns : Nat) (hi : i < ns) :
    ∀ n a, a ∈ ochTrace ins outs ich i n → accessOK ins outs ns a := by
  intro n
  induction n with
  | zero => intro a ha; simp [ochTrace] at ha
  | succ m ih =>
    intro a ha
    simp only [ochTrace, List.mem_append] at ha
    rcases ha with ha | ha
    · by_cases hg : (ins.getD ich none).isSome && (outs.getD m none).isSome
      · rw [if_pos hg] at ha
        simp only [Bool.and_eq_true] at hg
        simp only [List.mem_cons, List.mem_singleton] at ha
        rcases ha with rfl | ha
        · exact ⟨hg.1, hi⟩
        · rcases ha with rfl | ha
          · exact ⟨hg.2, hi⟩
          · simp at ha
      · rw [if_neg hg] at ha
        simp at ha
    · exact ih a ha

theorem ichTrace_ok (ins outs : Buffers) (numOut i ns : Nat) (hi : i < ns) :
    ∀ n a, a ∈ ichTrace ins outs numOut i n → accessOK ins outs ns a := by
  intro n
  induction n with
  | zero => intro a ha; simp [ichTrace] at ha
  | succ m ih =>
    intro a ha
    simp only [ichTrace, List.mem_append] at ha
    rcases ha with ha | ha
    · exact ochTrace_ok ins outs m i ns hi numOut a ha
    · exact ih a ha

theorem sampleTrace_ok (ins outs : Buffers) (numIn numOut ns : Nat) :
    ∀ rem i0, i0 + rem ≤ ns →
      ∀ a, a ∈ sampleTrace ins outs numIn numOut i0 rem → accessOK ins outs ns a := by
  intro rem
  induction rem with
  | zero => intro i0 _ a ha; simp [sampleTrace] at ha
  | succ m ih =>
    intro i0 hle a ha
    simp only [sampleTrace, List.mem_append] at ha
    rcases ha with ha | ha
    · exact ichTrace_ok ins outs numOut i0 ns (by omega) numIn a ha
    · exact ih (i0 + 1) (by omega) a ha

theorem clearTrace_ok (outs : Buffers) (ns : Nat) :
    ∀ rem i0 a (ins : Buffers), a ∈ clearTrace outs ns i0 rem → accessOK ins outs ns a := by
  intro rem
  induction rem with
  | zero => intro i0 a ins ha; simp [clearTrace] at ha
  | succ m ih =>
    intro i0 a ins ha
    simp only [clearTrace, List.mem_append] at ha
    rcases ha with ha | ha
    · by_cases hg : (outs.getD i0 none).isSome
      · rw [if_pos hg] at ha
        simp only [List.mem_map, List.mem_range] at ha
        rcases ha with ⟨j, hj, rfl⟩
        exact ⟨hg, hj⟩
      · rw [if_neg hg] at ha
        simp at ha
    · exact ih (i0 + 1) a ins ha

theorem cbTrace_ok (s : UnMuter) (ins : Buffers) (numIn : Nat) (outs : Buffers)
    (numOut ns : Nat) :
    ∀ a, a ∈ cbTrace s ins numIn outs numOut ns → accessOK ins outs ns a := by
  intro a ha
  unfold cbTrace at ha
  by_cases hrun : s.testIsRunning
  · rw [if_pos hrun] at ha
    exact sampleTrace_ok ins outs numIn numOut ns ns 0 (by omega) a ha
  · rw [if_neg hrun] at ha
    exact clearTrace_ok outs ns numOut 0 a ins ha

/-- Shared helper: the idle branch leaves 0 in the first ns slots of every
non-null output channel it visits. -/
theorem clear_silences (outs : Buffers) (numOut ns : Nat) :
    ∀ och ch, och < numOut → outs.getD och none = some ch → ns ≤ ch.length →
      ∀ i, i < ns → chRead ((clearLoop ns 0 numOut outs).getD och none) i = 0 := by
  intro och ch hoch hch hlen i hi
  rw [clearLoop_getD, if_pos ⟨by omega, by omega⟩]
  simp only [hch, chRead]
  exact zeroFirst_getD ch ns i hi (by omega)

/-! ## Claims -/

/-- C1 (counterexample): the multi-channel fan-in scenario of the spec is
wrong about the code.  With the engine active, inputs A = [1,1] (index 0)
and B = [2,2] (index 1), one output channel and numSamples = 2, the
callback does NOT leave B's values in the output: the input loop runs from
the highest index down to 0, so channel A (index 0) is processed last. -/
theorem c1_counterexample :
    audioDeviceIOCallbackWithContext ⟨true⟩ [some [1, 1], some [2, 2]] 2
      [some [9, 9]] 1 2 ≠ [some [2, 2]] := by decide

/-- C1 (amended): in the same scenario the output channel ends up holding
A's values [1,1], because input channels are iterated from highest index
to lowest, so the lowest-indexed channel is processed last and its samples
overwrite every earlier contribution. -/
theorem c1_amended :
    audioDeviceIOCallbackWithContext ⟨true⟩ [some [1, 1], some [2, 2]] 2
      [some [9, 9]] 1 2 = [some [1, 1]] := by decide

/-- C2: idle silence.  Whenever the callback runs with testIsRunning =
false, every non-null output channel (of the numOut channels of the call,
with the host-guaranteed capacity of at least numSamples elements) has 0.0
in each of its first numSamples slots afterwards, whatever the output
buffers held before and whatever the inputs are. -/
theorem c2_idle_silence (s : UnMuter) (ins : Buffers) (numIn : Nat)
    (outs : Buffers) (numOut ns : Nat) (hrun : s.testIsRunning = false) :
    ∀ och ch, och < numOut → outs.getD och none = some ch → ns ≤ ch.length →
      ∀ i, i < ns →
        chRead ((audioDeviceIOCallbackWithContext s ins numIn outs numOut ns).getD och none) i
          = 0 := by
  intro och ch hoch hch hlen i hi
  unfold audioDeviceIOCallbackWithContext
  rw [hrun, if_neg Bool.false_ne_true]
  exact clear_silences outs numOut ns och ch hoch hch hlen i hi

/-- C2 witness at a concrete call: one output channel holding [5] is
zeroed while the engine is idle. -/
theorem c2_witness :
    chRead ((audioDeviceIOCallbackWithContext ⟨false⟩ [] 0 [some [5]] 1 1).getD 0 none) 0
      = 0 :=
  c2_idle_silence ⟨false⟩ [] 0 [some [5]] 1 1 rfl 0 [5] (by decide) rfl (by decide) 0
    (by decide)

/-- C3: active single-channel passthrough.  With testIsRunning = true, one
input channel a and one output channel b, both non-null and of capacity at
least numSamples, the callback leaves input sample i in output slot i for
every i below numSamples. -/
theorem c3_active_passthrough (s : UnMuter) (a b : Channel) (ns : Nat)
    (hrun : s.testIsRunning = true) (_hla : ns ≤ a.length) (hlb : ns ≤ b.length) :
    ∀ i, i < ns →
      chRead ((audioDeviceIOCallbackWithContext s [some a] 1 [some b] 1 ns).getD 0 none) i
        = chRead (some a) i := by
  intro i hi
  unfold audioDeviceIOCallbackWithContext
  rw [hrun, if_pos rfl, sampleLoop_getD]
  have hf : firstLive [some a] 1 = some 0 := rfl
  simp only [hf]
  rw [if_pos (by omega)]
  have hb : (([some b] : Buffers)).getD 0 none = some b := rfl
  simp only [hb, chRead]
  rw [setRange_getD, if_pos ⟨by omega, by omega, by omega⟩]
  rfl

/-- C3 witness at a concrete call: input [7] passes through to the single
output channel. -/
theorem c3_witness :
    chRead ((audioDeviceIOCallbackWithContext ⟨true⟩ [some [7]] 1 [some [9]] 1 1).getD 0 none) 0
      = chRead (some [7]) 0 :=
  c3_active_passthrough ⟨true⟩ [7] [9] 1 rfl (by decide) (by decide) 0 (by decide)

/-- C4: device-start resets to idle.  From any state in which beginTest
has just made the engine active, audioDeviceAboutToStart forces
testIsRunning back to false, and the next callback therefore runs the
idle zero-fill branch even though beginTest was not called again. -/
theorem c4_device_start_resets (s : UnMuter)
    (_hactive : ((beginTest s).2).testIsRunning = true) :
    (audioDeviceAboutToStart (beginTest s).2).testIsRunning = false ∧
    ∀ ins numIn outs numOut ns,
      audioDeviceIOCallbackWithContext (audioDeviceAboutToStart (beginTest s).2)
        ins numIn outs numOut ns = clearLoop ns 0 numOut outs := by
  exact ⟨rfl, fun ins numIn outs numOut ns => rfl⟩

/-- C4 witness: a freshly constructed engine toggled active, then hit by
audioDeviceAboutToStart, reads idle. -/
theorem c4_witness :
    (audioDeviceAboutToStart (beginTest UnMuter.init).2).testIsRunning = false :=
  (c4_device_start_resets UnMuter.init (by decide)).1

/-- C5: toggle flips and reports state.  beginTest always negates
testIsRunning and returns the new value; starting from the freshly
constructed (idle) engine the first call returns true and the second
returns false, and the callback after the first call runs the active copy
branch while the callback after the second runs the idle zero-fill
branch. -/
theorem c5_toggle_flips (s : UnMuter) :
    (beginTest s).1 = !s.testIsRunning ∧
    ((beginTest s).2).testIsRunning = !s.testIsRunning ∧
    (beginTest UnMuter.init).1 = true ∧
    (beginTest (beginTest UnMuter.init).2).1 = false ∧
    (∀ ins numIn outs numOut ns,
      audioDeviceIOCallbackWithContext (beginTest UnMuter.init).2 ins numIn outs numOut ns
        = sampleLoop ins numIn numOut 0 ns outs) ∧
    (∀ ins numIn outs numOut ns,
      audioDeviceIOCallbackWithContext (beginTest (beginTest UnMuter.init).2).2
        ins numIn outs numOut ns = clearLoop ns 0 numOut outs) := by
  obtain ⟨b⟩ := s
  cases b <;>
    exact ⟨rfl, rfl, rfl, rfl, fun _ _ _ _ _ => rfl, fun _ _ _ _ _ => rfl⟩

/-- C6 (counterexample): the claim that a null channel pointer never
affects the results of other (non-null) channels is wrong about the code.
Nulling input channel 0 while the engine is active changes the value the
(non-null) output channel 0 receives from 1 to 2, because a different
input channel now survives the fan-in. -/
theorem c6_counterexample :
    audioDeviceIOCallbackWithContext ⟨true⟩ [some [1], some [2]] 2 [some [9]] 1 1
      = [some [1]] ∧
    audioDeviceIOCallbackWithContext ⟨true⟩ [none, some [2]] 2 [some [9]] 1 1
      = [some [2]] ∧
    ([some [1]] : Buffers) ≠ [some [2]] := by decide

/-- C6 (amended): null-channel safety and bounds.  Every channel-memory
access of a callback goes through a non-null channel pointer at an offset
inside [0, numSamples), and a null OUTPUT pointer at some channel index
never changes the result produced in any other channel; a null INPUT
pointer, however, can change which input channel's samples survive in the
(non-null) output channels. -/
theorem c6_null_channel_safety (s : UnMuter) (ins : Buffers) (numIn : Nat)
    (outs : Buffers) (numOut ns : Nat) :
    (∀ a, a ∈ cbTrace s ins numIn outs numOut ns → accessOK ins outs ns a) ∧
    (∀ j och, och ≠ j →
      (audioDeviceIOCallbackWithContext s ins numIn (outs.set j none) numOut ns).getD och none
        = (audioDeviceIOCallbackWithContext s ins numIn outs numOut ns).getD och none) := by
  constructor
  · exact cbTrace_ok s ins numIn outs numOut ns
  · intro j och hne
    unfold audioDeviceIOCallbackWithContext
    by_cases hrun : s.testIsRunning
    · rw [if_pos hrun, if_pos hrun, sampleLoop_getD, sampleLoop_getD,
        getD_set_ne _ _ _ _ _ (fun h => hne h.symm)]
    · rw [if_neg hrun, if_neg hrun, clearLoop_getD, clearLoop_getD,
        getD_set_ne _ _ _ _ _ (fun h => hne h.symm)]

/-- C6 witness: in a concrete active callback the trace contains the read
of input channel 0 at offset 0, and that access is non-null and in
bounds. -/
theorem c6_witness :
    accessOK [some [1]] [some [9]] 1 (MemAccess.readIn 0 0) :=
  (c6_null_channel_safety ⟨true⟩ [some [1]] 1 [some [9]] 1 1).1
    (MemAccess.readIn 0 0) (by decide)

/-- C7 (counterexample): the claim that every access to testIsRunning is
made while holding the CriticalSection is wrong about the code: the flip
in beginTest (and the write in audioDeviceAboutToStart) run without any
ScopedLock, so those flag accesses are outside any critical section. -/
theorem c7_counterexample :
    ¬ (∀ a ∈ beginTestFlagTrace ++ aboutToStartFlagTrace ++ callbackFlagTrace,
        a.underLock = true) := by decide

/-- C7 (amended): only the per-callback read of testIsRunning happens
under the lock; all flag accesses in beginTest and the write in
audioDeviceAboutToStart happen without holding the lock. -/
theorem c7_lock_discipline :
    (∀ a ∈ callbackFlagTrace, a.underLock = true) ∧
    (∀ a ∈ beginTestFlagTrace, a.underLock = false) ∧
    (∀ a ∈ aboutToStartFlagTrace, a.underLock = false) := by decide

/-- C7 witness: the callback's read of the flag is under the lock. -/
theorem c7_witness : FlagAccess.underLock ⟨false, true⟩ = true :=
  c7_lock_discipline.1 ⟨false, true⟩ (by decide)

/-- C8: initial state is idle.  A freshly constructed engine has
testIsRunning = false, so its first callback (no beginTest in between)
runs the idle branch and zero-fills every non-null output channel of the
call. -/
theorem c8_initial_idle :
    UnMuter.init.testIsRunning = false ∧
    (∀ ins numIn outs numOut ns,
      audioDeviceIOCallbackWithContext UnMuter.init ins numIn outs numOut ns
        = clearLoop ns 0 numOut outs) ∧
    (∀ (ins : Buffers) (numIn : Nat) (outs : Buffers) (numOut ns : Nat),
      ∀ och ch, och < numOut → outs.getD och none = some ch → ns ≤ ch.length →
        ∀ i, i < ns →
          chRead ((audioDeviceIOCallbackWithContext UnMuter.init ins numIn outs numOut ns).getD och none) i
            = 0) := by
  refine ⟨rfl, fun _ _ _ _ _ => rfl, ?_⟩
  intro ins numIn outs numOut ns och ch hoch hch hlen i hi
  exact clear_silences outs numOut ns och ch hoch hch hlen i hi

/-- C8 witness: the first callback of a fresh engine zeroes a concrete
output channel holding [4]. -/
theorem c8_witness :
    chRead ((audioDeviceIOCallbackWithContext UnMuter.init [] 0 [some [4]] 1 1).getD 0 none) 0
      = 0 :=
  c8_initial_idle.2.2 [] 0 [some [4]] 1 1 0 [4] (by decide) rfl (by decide) 0 (by decide)

/-- C9: lowest-index input wins.  In the active branch the input loop runs
from index numIn-1 down to 0, so for every sample and every non-null
output channel of the call the value that survives is the one read from
the smallest-indexed non-null input channel ich0: each non-null output
channel ends up an exact copy (over the first numSamples slots) of input
channel ich0, whenever some input pointer is non-null. -/
theorem c9_lowest_input_wins (s : UnMuter) (ins : Buffers) (numIn : Nat)
    (outs : Buffers) (numOut ns ich0 : Nat)
    (hrun : s.testIsRunning = true)
    (h0 : ich0 < numIn)
    (hsome : (ins.getD ich0 none).isSome = true)
    (hmin : ∀ j, j < ich0 → ins.getD j none = none) :
    ∀ och ch, och < numOut → outs.getD och none = some ch → ns ≤ ch.length →
      ∀ i, i < ns →
        chRead ((audioDeviceIOCallbackWithContext s ins numIn outs numOut ns).getD och none) i
          = chRead (ins.getD ich0 none) i := by
  intro och ch hoch hch hlen i hi
  unfold audioDeviceIOCallbackWithContext
  rw [hrun, if_pos rfl, sampleLoop_getD]
  simp only [firstLive_eq_of ins numIn ich0 h0 hsome hmin, hch, if_pos hoch, chRead]
  rw [setRange_getD, if_pos ⟨by omega, by omega, by omega⟩]

/-- C9 witness: with input channel 0 null and input channel 1 = [7], the
single output channel receives channel 1's sample. -/
theorem c9_witness :
    chRead ((audioDeviceIOCallbackWithContext ⟨true⟩ [none, some [7]] 2 [some [9]] 1 1).getD 0 none) 0
      = chRead (([none, some [7]] : Buffers).getD 1 none) 0 :=
  c9_lowest_input_wins ⟨true⟩ [none, some [7]] 2 [some [9]] 1 1 1 rfl (by decide)
    (by decide) (by decide) 0 [9] (by decide) rfl (by decide) 0 (by decide)

/-- C10: stale output in the active state with no usable input.  If
testIsRunning is true and every input channel pointer below numIn is null
(which covers numIn = 0), the callback performs no write at all: the
output buffers are returned exactly as they came in, so previous or
uninitialized contents persist. -/
theorem c10_stale_output (s : UnMuter) (ins : Buffers) (numIn : Nat)
    (outs : Buffers) (numOut ns : Nat)
    (hrun : s.testIsRunning = true)
    (hnull : ∀ ich, ich < numIn → ins.getD ich none = none) :
    audioDeviceIOCallbackWithContext s ins numIn outs numOut ns = outs := by
  unfold audioDeviceIOCallbackWithContext
  rw [hrun, if_pos rfl]
  exact sampleLoop_allNull ins numIn numOut hnull ns 0 outs

/-- C10 witness: an active callback with one null input channel leaves the
output buffer [3] untouched. -/
theorem c10_witness :
    audioDeviceIOCallbackWithContext ⟨true⟩ [none] 1 [some [3]] 1 1 = [some [3]] :=
  c10_stale_output ⟨true⟩ [none] 1 [some [3]] 1 1 rfl (by decide)
